import Mathlib

/-!
# Verification of `to_precision` (significant-figure formatting of binary64)

Shallow embedding of `src/lib.rs`.  IEEE-754 binary64 values are modelled by
the type `F64` below: `nan`, signed infinity, and finite values carried as a
sign bit together with an exact nonnegative rational magnitude on the binary64
grid.  The IEEE-specified operations used by the source (`*`, `/`, `abs`,
negation, comparisons, `f64::round`) are modelled exactly: products and
quotients are the exact rational results rounded to nearest, ties to even,
with gradual underflow and overflow to infinity, which is precisely the IEEE
round-to-nearest semantics Rust guarantees for these operators.

Rational arithmetic is carried out through small `mkRat`-based helpers
(`rMul`, `rDiv`, ...) rather than the `Field ℚ` notation, so that every
definition evaluates by kernel reduction alone.

Three operations the source uses come from the platform, not the repository:

* `f64::log10` (libm).  The source computes `x.log10().floor()`; that
  composite is modelled by `floorLog10F` as the exact decimal floor
  `⌊log10 |x|⌋`.  This idealisation is faithful except when the true
  `log10 |x|` lies within half an ulp below an exactly representable output;
  each concrete input evaluated below lies far from such a boundary, and the
  one claim that hinges on the deviation is analysed through the parametric
  `tenPowerLeqFrom`, which takes the floored libm output as an argument.
* `f64::powi` (whose precision Rust leaves unspecified): modelled correctly
  rounded by `powi10`; all powers `10^n` with `|n| ≤ 22` are exact anyway.
* the platform's default double-to-string conversion (Rust's `Display`,
  shortest round-tripping decimal printed positionally): modelled by
  `f64Str`.

The stray `println!` calls in `to_sig_figs` write to stdout, not to the
formatter's sink, so they do not affect the rendered string and are omitted.
Debug-only assertions (`debug_assert!`) are modelled by release semantics;
the saturating `as i32` cast is modelled exactly (NaN casts to 0).
-/

set_option maxRecDepth 4000000
set_option exponentiation.threshold 2000

/-- The rational `n` for a natural `n`, built by `mkRat` so it evaluates by
kernel reduction. -/
def rOfNat (n : Nat) : ℚ := mkRat (Int.ofNat n) 1

/-- The rational `n` for an integer `n`. -/
def rOfInt (n : Int) : ℚ := mkRat n 1

/-- Exact rational product. -/
def rMul (a b : ℚ) : ℚ := mkRat (a.num * b.num) (a.den * b.den)

/-- Exact rational sum. -/
def rAdd (a b : ℚ) : ℚ := mkRat (a.num * (b.den : Int) + b.num * (a.den : Int)) (a.den * b.den)

/-- Exact rational difference. -/
def rSub (a b : ℚ) : ℚ := mkRat (a.num * (b.den : Int) - b.num * (a.den : Int)) (a.den * b.den)

/-- Exact rational quotient, for positive divisors (the only use below). -/
def rDiv (a b : ℚ) : ℚ := mkRat (a.num * (b.den : Int)) (a.den * b.num.toNat)

/-- The rational one half. -/
def rHalf : ℚ := mkRat 1 2

/-- Fuel-driven bit length of a natural number (fuel keeps the recursion
structural so that the kernel can evaluate it). -/
def bitsAux : Nat → Nat → Nat
  | 0, _ => 0
  | f + 1, n => if n = 0 then 0 else bitsAux f (n / 2) + 1

/-- Bit length, with fuel ample for every number arising from binary64 data. -/
def bitsN (n : Nat) : Nat := bitsAux 8000 n

/-- Fuel-driven count of decimal digits of a positive natural number. -/
def digitsAux : Nat → Nat → Nat
  | 0, _ => 1
  | f + 1, n => if n < 10 then 1 else digitsAux f (n / 10) + 1

/-- Decimal digit count. -/
def digits10 (n : Nat) : Nat := digitsAux 8000 n

/-- Floor of a rational number, computably. -/
def ratFloor (q : ℚ) : Int := q.num.fdiv (q.den : Int)

/-- Round a nonnegative rational to the nearest integer, ties to even. -/
def rneInt (q : ℚ) : Int :=
  let n := ratFloor q
  let r := rSub q (rOfInt n)
  if r < rHalf then n
  else if rHalf < r then n + 1
  else if n % 2 = 0 then n else n + 1

/-- The rational `2^n` for an integer `n`. -/
def pow2R (n : Int) : ℚ :=
  if 0 ≤ n then mkRat (Int.ofNat (2 ^ n.toNat)) 1 else mkRat 1 (2 ^ (-n).toNat)

/-- The rational `10^n` for an integer `n`. -/
def pow10R (n : Int) : ℚ :=
  if 0 ≤ n then mkRat (Int.ofNat (10 ^ n.toNat)) 1 else mkRat 1 (10 ^ (-n).toNat)

/-- Exact `⌊log2 q⌋` of a positive rational: the bit lengths of numerator and
denominator bracket the exponent within one, and a single comparison settles it. -/
def blog (q : ℚ) : Int :=
  let t : Int := (bitsN q.num.toNat : Int) - (bitsN q.den : Int)
  if (if 0 ≤ t then (q.den : Int) * (Int.ofNat (2 ^ t.toNat)) ≤ q.num
      else (q.den : Int) ≤ q.num * (Int.ofNat (2 ^ (-t).toNat)))
  then t else t - 1

/-- Exact `⌊log10 q⌋` of a positive rational, by decimal digit counts. -/
def floorLog10Rat (q : ℚ) : Int :=
  let t : Int := (digits10 q.num.toNat : Int) - (digits10 q.den : Int)
  if (if 0 ≤ t then (q.den : Int) * (Int.ofNat (10 ^ t.toNat)) ≤ q.num
      else (q.den : Int) ≤ q.num * (Int.ofNat (10 ^ (-t).toNat)))
  then t else t - 1

/-- Result of rounding a magnitude onto the binary64 grid: either a finite
representable rational or an overflow to infinity. -/
inductive MagR where
  | inf : MagR
  | val : ℚ → MagR
deriving DecidableEq

/-- Round a nonnegative rational magnitude to the binary64 grid
(round to nearest, ties to even, gradual underflow, overflow to `inf`).
This is the IEEE rounding that Rust's `*` and `/` on `f64` perform. -/
def roundMag (q : ℚ) : MagR :=
  if q.num ≤ 0 then MagR.val (mkRat 0 1)
  else
    let e := blog q
    let sh : Int := if e - 52 < -1074 then -1074 else e - 52
    let m := rneInt (rMul q (pow2R (-sh)))
    let r := rMul (rOfInt m) (pow2R sh)
    if rOfNat (2 ^ 1024) ≤ r then MagR.inf else MagR.val r

/-- IEEE-754 binary64, embedded: `nan`, signed infinities, and finite values
as sign plus exact nonnegative rational magnitude (zero included, so both
signed zeros are distinguished). -/
inductive F64 where
  | nan : F64
  | inf : Bool → F64
  | fin : Bool → ℚ → F64
deriving DecidableEq

/-- Attach a sign to a rounded magnitude. -/
def mkF64 (s : Bool) : MagR → F64
  | MagR.inf => F64.inf s
  | MagR.val q => F64.fin s q

/-- The binary64 nearest a rational (how a Rust float literal denotes a double). -/
def ofRat (q : ℚ) : F64 :=
  if q.num < 0 then mkF64 true (roundMag (mkRat (-q.num) q.den))
  else mkF64 false (roundMag q)

/-- IEEE equality (`==` on `f64`): `NaN` equals nothing, `-0.0 == 0.0`; on
sign-magnitude data: equal signs compare magnitudes, opposite signs are equal
only when both magnitudes are zero. -/
def F64.feq : F64 → F64 → Bool
  | F64.nan, _ => false
  | _, F64.nan => false
  | F64.inf s, F64.inf t => s == t
  | F64.inf _, F64.fin _ _ => false
  | F64.fin _ _, F64.inf _ => false
  | F64.fin s m, F64.fin t n =>
    if s == t then decide (m = n) else decide (m.num = 0) && decide (n.num = 0)

/-- IEEE strict order (`<` on `f64`): `NaN` is unordered; on sign-magnitude
data: two nonnegative values compare by magnitude, two nonpositive ones
reversed, a negative is below a nonnegative unless both are zeros. -/
def F64.flt : F64 → F64 → Bool
  | F64.nan, _ => false
  | _, F64.nan => false
  | F64.inf s, F64.inf t => s && !t
  | F64.inf s, F64.fin _ _ => s
  | F64.fin _ _, F64.inf t => !t
  | F64.fin s m, F64.fin t n =>
    match s, t with
    | false, false => decide (m < n)
    | true, true => decide (n < m)
    | true, false => !(decide (m.num = 0) && decide (n.num = 0))
    | false, true => false

/-- `f64::is_nan`. -/
def F64.isNaN : F64 → Bool
  | F64.nan => true
  | _ => false

/-- `f64::is_finite`. -/
def F64.isFinite : F64 → Bool
  | F64.fin _ _ => true
  | _ => false

/-- IEEE negation (sign-bit flip). -/
def F64.fneg : F64 → F64
  | F64.nan => F64.nan
  | F64.inf s => F64.inf (!s)
  | F64.fin s m => F64.fin (!s) m

/-- `f64::abs` (sign-bit clear). -/
def F64.fabs : F64 → F64
  | F64.nan => F64.nan
  | F64.inf _ => F64.inf false
  | F64.fin _ m => F64.fin false m

/-- IEEE multiplication: exact product, correctly rounded; the special-value
table of IEEE 754 (`0 · ∞ = NaN`, etc.). -/
def F64.fmul : F64 → F64 → F64
  | F64.nan, _ => F64.nan
  | _, F64.nan => F64.nan
  | F64.inf s, F64.inf t => F64.inf (xor s t)
  | F64.inf s, F64.fin t m => if m.num = 0 then F64.nan else F64.inf (xor s t)
  | F64.fin s m, F64.inf t => if m.num = 0 then F64.nan else F64.inf (xor s t)
  | F64.fin s m, F64.fin t n => mkF64 (xor s t) (roundMag (rMul m n))

/-- IEEE division: exact quotient, correctly rounded; `∞/∞ = 0/0 = NaN`,
`x/∞ = ±0`, `x/0 = ±∞`. -/
def F64.fdiv : F64 → F64 → F64
  | F64.nan, _ => F64.nan
  | _, F64.nan => F64.nan
  | F64.inf _, F64.inf _ => F64.nan
  | F64.inf s, F64.fin t _ => F64.inf (xor s t)
  | F64.fin s _, F64.inf t => F64.fin (xor s t) (mkRat 0 1)
  | F64.fin s m, F64.fin t n =>
    if n.num = 0 then (if m.num = 0 then F64.nan else F64.inf (xor s t))
    else mkF64 (xor s t) (roundMag (rDiv m n))

/-- `f64::round`: nearest integer, halves away from zero; exact on doubles
(on the magnitude this is the floor of `m + 1/2`, and the result is always
representable, since any double at least `2^52` is already an integer). -/
def F64.fround : F64 → F64
  | F64.nan => F64.nan
  | F64.inf s => F64.inf s
  | F64.fin s m => F64.fin s (rOfInt (ratFloor (rAdd m rHalf)))

/-- Rust's saturating `as i32` cast on `f64`: truncate toward zero, clamp to
the `i32` range, `NaN ↦ 0`. -/
def castI32 : F64 → Int
  | F64.nan => 0
  | F64.inf s => if s then -2147483648 else 2147483647
  | F64.fin s m =>
    let t : Int := if s then -(ratFloor m) else ratFloor m
    if t < -2147483648 then -2147483648
    else if 2147483647 < t then 2147483647 else t

/-- Models the composite `x.log10().floor()` of the source: the platform's
`log10` followed by `floor`.  Modelled as the exact decimal floor of the
magnitude, which agrees with the libm composite except when the true
`log10 |x|` lies within half an ulp below an exactly representable output;
that deviation is treated explicitly where it matters (see
`tenPowerLeqFrom`).  `log10` of `+∞` is `+∞`, of `0` is `-∞`, of `NaN` is
`NaN`. -/
def floorLog10F : F64 → F64
  | F64.nan => F64.nan
  | F64.inf s => F64.inf s
  | F64.fin _ m =>
    if m.num = 0 then F64.inf true
    else F64.fin (decide (floorLog10Rat m < 0)) (rOfNat (floorLog10Rat m).natAbs)

/-- Models `10.0f64.powi(n)`: Rust leaves `powi`'s precision unspecified, so
it is modelled as the correctly rounded `10^n`; for `|n| ≤ 22` the power is
exactly representable and every implementation agrees. -/
def powi10 (n : Int) : F64 := mkF64 false (roundMag (pow10R n))

/-- The policy constant `MAX_FRACTION_DIGITS` from the source. -/
def MAX_FRACTION_DIGITS : Nat := 21

/-- The display handle `F64Display(f64, i32)`: the wrapped number and the
validated precision, consumed at render time. -/
structure F64Display where
  x : F64
  p : Int
deriving DecidableEq

/-- Decimal digit characters. -/
def digitChar : Nat → Char
  | 0 => '0' | 1 => '1' | 2 => '2' | 3 => '3' | 4 => '4'
  | 5 => '5' | 6 => '6' | 7 => '7' | 8 => '8' | _ => '9'

/-- Fuel-driven decimal digit list of a natural number (most significant first). -/
def natDigitsAux : Nat → Nat → List Char → List Char
  | 0, _, acc => acc
  | f + 1, n, acc =>
    if n < 10 then digitChar n :: acc
    else natDigitsAux f (n / 10) (digitChar (n % 10) :: acc)

/-- Decimal digits of a natural number as characters. -/
def natDigits (n : Nat) : List Char := natDigitsAux 40 n []

/-- Decimal rendering of a natural number. -/
def natStr (n : Nat) : String := String.mk (natDigits n)

/-- `FloatExt::to_precision` for `f64`: validates `1 <= p <= 21` and wraps the
number and precision in a display handle; a violation panics (modelled as
`Except.error` carrying the panic diagnostic). -/
def to_precision (x : F64) (p : Nat) : Except String F64Display :=
  if 1 ≤ p ∧ p ≤ MAX_FRACTION_DIGITS then Except.ok ⟨x, (p : Int)⟩
  else Except.error ("precision must satisfy 1 <= p (" ++ natStr p ++ ") <= " ++
    natStr MAX_FRACTION_DIGITS)

/-- The tail of `ten_power_leq` after the platform computed
`x.abs().log10().floor() as i32`: taking that platform result `e0` as a
parameter, apply the source's single upward correction
`if 10.0f64.powi(e0 + 1) < x { e0 + 1 } else { e0 }`. -/
def tenPowerLeqFrom (e0 : Int) (xa : F64) : Int :=
  if F64.flt (powi10 (e0 + 1)) xa then e0 + 1 else e0

/-- `ten_power_leq` from the source: assert `x != 0.` (panic modelled as
`none`; note NaN passes the assert, since `NaN != 0.` is true), take the
absolute value, floor the decimal log, cast to `i32`, and apply the upward
correction. -/
def ten_power_leq (x : F64) : Option Int :=
  if F64.feq x (F64.fin false 0) then none
  else
    let xa := F64.fabs x
    let lg := floorLog10F xa
    let e0 := castI32 lg
    some (tenPowerLeqFrom e0 xa)

/-- `to_sig_figs` from the source: `e = ten_power_leq(x)`, `p = e - sf + 1`;
if `p < 0` then `tens = 10.powi(-p)` and the result is
`(x * tens).round() / tens`, otherwise `tens = 10.powi(p)` and the result is
`(x / tens).round() * tens`.  A panic in `ten_power_leq` propagates as
`none`.  The source's `println!` calls write to stdout and are omitted. -/
def to_sig_figs (x : F64) (sf : Int) : Option F64 :=
  match ten_power_leq x with
  | none => none
  | some e =>
    let p := e - sf + 1
    if p < 0 then
      let tens := powi10 (-p)
      some (F64.fdiv (F64.fround (F64.fmul x tens)) tens)
    else
      let tens := powi10 p
      some (F64.fmul (F64.fround (F64.fdiv x tens)) tens)

/-- One length of the shortest-round-trip search: look for a decimal with `n`
significant digits whose binary64 rounding is exactly the magnitude `m`; of
the two bracketing candidates prefer the closer (ties to the even digit
block), as the platform's shortest-round-trip formatter does.  Returns the
digit block and its decimal exponent. -/
def tryLen (m : ℚ) (n : Nat) : Option (Nat × Int) :=
  let E := floorLog10Rat m
  let s : Int := (n : Int) - 1 - E
  let scaled := rMul m (pow10R s)
  let c1 := (ratFloor scaled).toNat
  let c2 := c1 + 1
  let ok1 := roundMag (rMul (rOfNat c1) (pow10R (-s))) = MagR.val m
  let ok2 := roundMag (rMul (rOfNat c2) (pow10R (-s))) = MagR.val m
  if ok1 ∧ ok2 then
    if rSub scaled (rOfNat c1) < rSub (rOfNat c2) scaled then some (c1, -s)
    else if rSub (rOfNat c2) scaled < rSub scaled (rOfNat c1) then some (c2, -s)
    else if c1 % 2 = 0 then some (c1, -s) else some (c2, -s)
  else if ok1 then some (c1, -s)
  else if ok2 then some (c2, -s)
  else none

/-- Fuel-driven search for the shortest round-tripping decimal, trying digit
counts `n, n+1, ...`; 17 significant digits always round-trip for binary64,
so the fallback is unreachable on representable magnitudes. -/
def findShortestAux (m : ℚ) : Nat → Nat → Nat × Int
  | _, 0 => (0, 0)
  | n, f + 1 =>
    match tryLen m n with
    | some r => r
    | none => findShortestAux m (n + 1) f

/-- Positional rendering of the decimal `c · 10^k` (no exponent notation:
Rust's `Display` for `f64` always prints positionally). -/
def decChars (c : Nat) (k : Int) : List Char :=
  if 0 ≤ k then natDigits c ++ List.replicate k.toNat '0'
  else
    let ds := natDigits c
    let kk := (-k).toNat
    if ds.length ≤ kk then '0' :: '.' :: (List.replicate (kk - ds.length) '0' ++ ds)
    else ds.take (ds.length - kk) ++ '.' :: ds.drop (ds.length - kk)

/-- Shortest-round-trip positional rendering of a positive representable
magnitude. -/
def posStr (m : ℚ) : String :=
  String.mk (decChars (findShortestAux m 1 18).1 (findShortestAux m 1 18).2)

/-- Models the platform's default binary64-to-string conversion (Rust's
`Display` for `f64`): shortest decimal that rounds back to the value, printed
positionally; `NaN`, `inf`/`-inf`, and signed zeros as Rust prints them. -/
def f64Str : F64 → String
  | F64.nan => "NaN"
  | F64.inf s => if s then "-inf" else "inf"
  | F64.fin s m =>
    if m.num = 0 then (if s then "-0" else "0")
    else (if s then "-" else "") ++ posStr m

/-- `Display for F64Display` from the source, rendering into a string sink:
`NaN` first, then `x == 0.`, then sign extraction (emit `-` and negate), then
infinity, and finally the rounded value — note the source passes `self.0`,
the original signed value, to `to_sig_figs`.  A panic is modelled as
`none`. -/
def fmt (d : F64Display) : Option String :=
  if F64.isNaN d.x then some "NaN"
  else if F64.feq d.x (F64.fin false 0) then some "0"
  else
    let isNeg := F64.flt d.x (F64.fin false 0)
    let pre := if isNeg then "-" else ""
    let x1 := if isNeg then F64.fneg d.x else d.x
    if !(F64.isFinite x1) then some (pre ++ "∞")
    else
      match to_sig_figs d.x d.p with
      | none => none
      | some v => some (pre ++ f64Str v)

/-- Follows the spec's words for the rounder (§4.2): let `e = ten_power_leq(x)`
and `p = e − sf + 1`; when `p ≥ 0`, `tens = 10^p` and the result is
`round(x / tens) · tens`; when `p < 0`, `tens = 10^(−p)` and the result is
`round(x · tens) / tens`; `round` is round-half-away-from-zero and all
arithmetic is binary64. -/
def to_sig_figs_spec (x : F64) (sf : Int) : Option F64 :=
  match ten_power_leq x with
  | none => none
  | some e =>
    let p := e - sf + 1
    if 0 ≤ p then
      let tens := powi10 p
      some (F64.fmul (F64.fround (F64.fdiv x tens)) tens)
    else
      let tens := powi10 (-p)
      some (F64.fdiv (F64.fround (F64.fmul x tens)) tens)

/-- Negating a finite value flips only the sign bit (at the level of the
equation for `F64.fin`). -/
theorem fneg_fin (s : Bool) (m : ℚ) : F64.fneg (F64.fin s m) = F64.fin (!s) m := rfl

/-- IEEE equality with zero is invariant under negation. -/
theorem feq_fneg_zero (x : F64) :
    F64.feq (F64.fneg x) (F64.fin false 0) = F64.feq x (F64.fin false 0) := by
  cases x with
  | nan => rfl
  | inf s => rfl
  | fin s m => cases s <;> simp [F64.feq, F64.fneg, Rat.num_eq_zero]

/-- Absolute value ignores the sign bit. -/
theorem fabs_fneg (x : F64) : F64.fabs (F64.fneg x) = F64.fabs x := by
  cases x <;> rfl

/-- The exponent locator only sees `|x|`, so it is invariant under negation. -/
theorem ten_power_leq_fneg (x : F64) :
    ten_power_leq (F64.fneg x) = ten_power_leq x := by
  unfold ten_power_leq
  rw [feq_fneg_zero, fabs_fneg]

/-- Negation commutes with attaching a sign to a rounded magnitude. -/
theorem fneg_mkF64 (s : Bool) (r : MagR) : F64.fneg (mkF64 s r) = mkF64 (!s) r := by
  cases r <;> rfl

/-- IEEE multiplication is odd in its first argument: rounding acts on the
magnitude only and the result sign is the XOR of the operand signs. -/
theorem fmul_fneg_left (a b : F64) : F64.fmul (F64.fneg a) b = F64.fneg (F64.fmul a b) := by
  cases a with
  | nan => cases b <;> rfl
  | inf s =>
    cases b with
    | nan => cases s <;> rfl
    | inf t => cases s <;> cases t <;> rfl
    | fin t m =>
      cases s <;> cases t <;> simp only [fneg_fin, F64.fneg, F64.fmul] <;> split <;> rfl
  | fin s m =>
    cases b with
    | nan => cases s <;> rfl
    | inf t =>
      cases s <;> cases t <;> simp only [fneg_fin, F64.fneg, F64.fmul] <;> split <;> rfl
    | fin t n =>
      cases s <;> cases t <;> simp only [fneg_fin, F64.fmul, fneg_mkF64] <;> rfl

/-- IEEE division is odd in its first argument. -/
theorem fdiv_fneg_left (a b : F64) : F64.fdiv (F64.fneg a) b = F64.fneg (F64.fdiv a b) := by
  cases a with
  | nan => cases b <;> rfl
  | inf s =>
    cases b with
    | nan => cases s <;> rfl
    | inf t => cases s <;> cases t <;> rfl
    | fin t m => cases s <;> cases t <;> rfl
  | fin s m =>
    cases b with
    | nan => cases s <;> rfl
    | inf t => cases s <;> cases t <;> rfl
    | fin t n =>
      cases s <;> cases t <;> simp only [fneg_fin, F64.fdiv] <;> split <;>
        first
        | (split <;> rfl)
        | (rw [fneg_mkF64]; rfl)

/-- `f64::round` (half away from zero) is odd: it rounds the magnitude and
keeps the sign. -/
theorem fround_fneg (a : F64) : F64.fround (F64.fneg a) = F64.fneg (F64.fround a) := by
  cases a <;> rfl

/-- C3.  `to_sig_figs` is exactly the procedure the spec describes: with
`e = ten_power_leq(x)` and `p = e − sf + 1`, it returns
`round(x / 10^p) · 10^p` when `p ≥ 0` and `round(x · 10^(−p)) / 10^(−p)` when
`p < 0`, all arithmetic in binary64, `round` half away from zero (`F64.fround`). -/
theorem to_sig_figs_refines_spec (x : F64) (sf : Int) :
    to_sig_figs x sf = to_sig_figs_spec x sf := by
  unfold to_sig_figs to_sig_figs_spec
  cases ten_power_leq x with
  | none => rfl
  | some e =>
    by_cases h : e - sf + 1 < 0
    · simp only [if_pos h, if_neg (show ¬ (0 ≤ e - sf + 1) by omega)]
    · simp only [if_neg h, if_pos (show 0 ≤ e - sf + 1 by omega)]

/-- C4.  The four concrete renderings: `to_precision(1234.0, 3)` prints
`1230`, `to_precision(9999.0, 1)` prints `10000`, `to_precision(0.1234, 3)`
prints `0.123`, and `to_precision(0.9999, 3)` prints `1`. -/
theorem concrete_renderings :
    fmt ⟨ofRat 1234, 3⟩ = some "1230" ∧
    fmt ⟨ofRat 9999, 1⟩ = some "10000" ∧
    fmt ⟨ofRat (mkRat 1234 10000), 3⟩ = some "0.123" ∧
    fmt ⟨ofRat (mkRat 9999 10000), 3⟩ = some "1" := by
  refine ⟨?_, ?_, ?_, ?_⟩ <;> decide

/-- C1.  The formatter emits `-` for a negative input but then formats
`to_sig_figs(self.0, p)` with the original negative `self.0`, whose own
rendering starts with another `-`: `to_precision(-1234.0, 3)` renders as
`--1230`, not `-1230`, refuting the claim that the output is `-` followed by
the rendering of `to_sig_figs(|x|, p)` with exactly one leading minus. -/
theorem negative_rendering_double_minus :
    fmt ⟨ofRat (mkRat (-1234) 1), 3⟩ = some "--1230" ∧
    to_sig_figs (ofRat (mkRat (-1234) 1)) 3 = some (F64.fin true 1230) := by
  refine ⟨?_, ?_⟩ <;> decide

/-- C2.  At `x = 10^16 − 2` (a binary64, the largest double below `10^16`),
the platform's `log10` returns exactly `16.0` — the true value `16 − 8.7e−17`
is within 0.025 ulp of `16.0`, so any libm accurate to even a few ulp rounds
there — and flooring gives `e0 = 16`.  The source's correction step
(`tenPowerLeqFrom`) can only adjust upward, so `ten_power_leq` returns `16`,
yet `10^16 ≤ x` is false (`x < 10^16`, and `10^16` is exactly representable):
the documented bracket `10^e ≤ x < 10^(e+1)` is violated. -/
theorem ten_power_leq_bracket_violation :
    tenPowerLeqFrom 16 (F64.fin false (rOfNat (10 ^ 16 - 2))) = 16 ∧
    F64.flt (F64.fin false (rOfNat (10 ^ 16 - 2))) (powi10 16) = true := by
  refine ⟨?_, ?_⟩ <;> decide

/-- C5.  Idempotence fails: at `x = 2^−1020` (a normal binary64) with
`sf = 21`, the scale `10.powi(322)` overflows to `+∞`, `(x·∞).round()/∞`
is NaN, so `to_sig_figs(x, 21)` is NaN, `to_sig_figs(to_sig_figs(x, 21), 21)`
is NaN as well, and the claimed equation uses IEEE `==`, under which
`NaN == NaN` is false. -/
theorem idempotence_fails_on_nan_result :
    to_sig_figs (F64.fin false (mkRat 1 (2 ^ 1020))) 21 = some F64.nan ∧
    (to_sig_figs (F64.fin false (mkRat 1 (2 ^ 1020))) 21).bind
      (fun y => to_sig_figs y 21) = some F64.nan ∧
    F64.feq F64.nan F64.nan = false := by
  refine ⟨?_, ?_, ?_⟩ <;> decide

/-- C6.  For every precision, NaN renders as `NaN`, both signed zeros render
as `0` with no sign, `+∞` renders as `∞`, and `−∞` renders as `-∞` (the sign
is emitted before the infinity check). -/
theorem special_value_rendering (p : Int) :
    fmt ⟨F64.nan, p⟩ = some "NaN" ∧
    fmt ⟨F64.fin false 0, p⟩ = some "0" ∧
    fmt ⟨F64.fin true 0, p⟩ = some "0" ∧
    fmt ⟨F64.inf false, p⟩ = some "∞" ∧
    fmt ⟨F64.inf true, p⟩ = some "-∞" :=
  ⟨rfl, rfl, rfl, rfl, rfl⟩

/-- C7.  `to_precision` succeeds exactly on `1 ≤ p ≤ 21`, wrapping the value
and the precision unchanged, and otherwise panics with a diagnostic that
names the offending value and the legal bound. -/
theorem to_precision_validation (x : F64) (p : Nat) :
    ((1 ≤ p ∧ p ≤ 21) → to_precision x p = Except.ok ⟨x, (p : Int)⟩) ∧
    (¬(1 ≤ p ∧ p ≤ 21) →
      to_precision x p =
        Except.error ("precision must satisfy 1 <= p (" ++ natStr p ++ ") <= " ++
          natStr MAX_FRACTION_DIGITS)) := by
  constructor
  · intro h
    simp [to_precision, MAX_FRACTION_DIGITS, h]
  · intro h
    simp [to_precision, MAX_FRACTION_DIGITS, h]

/-- C7 witness: precision 5 constructs the handle, precisions 0 and 22 panic
with the diagnostic naming the value and the bound 21. -/
theorem to_precision_validation_witness :
    to_precision (F64.fin false 1) 5 = Except.ok ⟨F64.fin false 1, 5⟩ ∧
    to_precision (F64.fin false 1) 0 =
      Except.error "precision must satisfy 1 <= p (0) <= 21" ∧
    to_precision (F64.fin false 1) 22 =
      Except.error "precision must satisfy 1 <= p (22) <= 21" :=
  ⟨(to_precision_validation (F64.fin false 1) 5).1 (by decide),
   (to_precision_validation (F64.fin false 1) 0).2 (by decide),
   (to_precision_validation (F64.fin false 1) 22).2 (by decide)⟩

/-- C8 (amended).  Sign symmetry holds at the level of binary64 data:
`to_sig_figs(−x, sf)` is the negation of `to_sig_figs(x, sf)` as a value
(identical classification; for non-NaN results this is the claimed equation,
since IEEE `==` agrees with structural equality away from NaN). -/
theorem to_sig_figs_fneg (x : F64) (sf : Int) :
    to_sig_figs (F64.fneg x) sf = Option.map F64.fneg (to_sig_figs x sf) := by
  unfold to_sig_figs
  rw [ten_power_leq_fneg]
  cases ten_power_leq x with
  | none => rfl
  | some e =>
    by_cases hp : e - sf + 1 < 0
    · simp only [if_pos hp, fmul_fneg_left, fround_fneg, fdiv_fneg_left]
      rfl
    · simp only [if_neg hp, fdiv_fneg_left, fround_fneg, fmul_fneg_left]
      rfl

/-- C8 counterexample.  As stated with IEEE `==`, sign symmetry fails: at
`x = 2^−1010`, `sf = 21`, both `to_sig_figs(−x, 21)` and
`−to_sig_figs(x, 21)` are NaN (the scale `10^325` overflows to `∞` and
`∞/∞ = NaN`), and `NaN == NaN` is false. -/
theorem sign_symmetry_ieee_eq_fails :
    to_sig_figs (F64.fneg (F64.fin false (mkRat 1 (2 ^ 1010)))) 21 = some F64.nan ∧
    to_sig_figs (F64.fin false (mkRat 1 (2 ^ 1010))) 21 = some F64.nan ∧
    F64.feq F64.nan (F64.fneg F64.nan) = false := by
  refine ⟨?_, ?_, ?_⟩ <;> decide

/-- C9.  Rendering never panics: for every binary64 `x` and every precision,
the formatter filters NaN, zeros and infinities before the rounder, so
`to_sig_figs` and `ten_power_leq` are reached only with a finite nonzero
argument, the nonzero assertion in `ten_power_leq` never fires, and `fmt`
always produces a string. -/
theorem rendering_never_panics (x : F64) (p : Int) : (fmt ⟨x, p⟩).isSome = true := by
  cases x with
  | nan => rfl
  | inf s => cases s <;> rfl
  | fin s m =>
    by_cases h : F64.feq (F64.fin s m) (F64.fin false 0) = true
    · simp [fmt, h, F64.isNaN]
    · have h' : F64.feq (F64.fin s m) (F64.fin false 0) = false := by
        cases hq : F64.feq (F64.fin s m) (F64.fin false 0)
        · rfl
        · exact absurd hq h
      obtain ⟨v, hv⟩ : ∃ v, to_sig_figs (F64.fin s m) p = some v := by
        simp only [to_sig_figs, ten_power_leq, h', Bool.false_eq_true, if_false]
        split
        · exact ⟨_, rfl⟩
        · exact ⟨_, rfl⟩
      simp only [fmt, h', F64.isNaN, Bool.false_eq_true, if_false, hv]
      split <;> simp [F64.fneg, F64.isFinite]

/-- C10.  At `x = 2^−1000` (a normal binary64) with `sf = 21`, the exponent
is `e = −302`, `p = −322`, the scale `10.powi(322)` overflows to `+∞`, and
`(x · ∞).round() / ∞ = ∞ / ∞ = NaN`: `to_sig_figs` returns NaN, which is not
a finite nonzero binary64. -/
theorem rounder_returns_nan_on_tiny_input :
    to_sig_figs (F64.fin false (mkRat 1 (2 ^ 1000))) 21 = some F64.nan ∧
    F64.isFinite F64.nan = false := by
  refine ⟨?_, ?_⟩ <;> decide
